import Mathlib

/-!
Verification of the yandexadv metrics system.

The first half embeds the metric value model, the update coordinator and
the storage backends; the second half embeds the functions found verbatim
in the repository: the agent's retry loop (`sendWithRetry`), the server's
HMAC middleware (`CheckHash`), the agent's gzip helper (`CompressData`)
and the server configuration accessor (`FileStoragePath`).
-/

attribute [local semireducible] Rat.add Rat.mul Rat.inv Rat.ofScientific

/-- Metric kind: the two recognized kinds. -/
inductive MetricKind where
  | counter
  | gauge
deriving DecidableEq

/-- The kind string used on the wire ("counter" / "gauge"). -/
def MetricKind.str : MetricKind → String
  | .counter => "counter"
  | .gauge => "gauge"

/-- A stored metric value: a 64-bit signed integer for Counter (modelled as
`Int`), a floating-point number for Gauge (modelled as `Rat`, which represents
every decimal literal exactly). -/
inductive MetricValue where
  | counterVal (v : Int)
  | gaugeVal (v : Rat)
deriving DecidableEq

/-- Value of a decimal digit string, most significant first. -/
def digitsToNat (cs : List Char) : Nat :=
  cs.foldl (fun a c => a * 10 + (c.toNat - 48)) 0

/-- Strip an optional leading sign; returns (negative?, rest). -/
def stripSign : List Char → Bool × List Char
  | '+' :: cs => (false, cs)
  | '-' :: cs => (true, cs)
  | cs => (false, cs)

def int64Min : Int := -(2 ^ 63)

def int64Max : Int := 2 ^ 63 - 1

/-- `strconv.ParseInt(s, 10, 64)`: optional sign, one or more decimal
digits, and the result must fit in a signed 64-bit integer. -/
def parseInt64? (s : String) : Option Int :=
  let (neg, cs) := stripSign s.toList
  if cs = [] then none
  else if cs.all Char.isDigit then
    let n : Int := if neg then -(digitsToNat cs : Int) else (digitsToNat cs : Int)
    if int64Min ≤ n ∧ n ≤ int64Max then some n else none
  else none

/-- Split a character list at the first exponent marker 'e' or 'E'. -/
def splitExp : List Char → List Char × Option (List Char)
  | [] => ([], none)
  | c :: cs =>
    if c = 'e' ∨ c = 'E' then ([], some cs)
    else
      let (m, e) := splitExp cs
      (c :: m, e)

/-- Parse an unsigned decimal mantissa: digits, with an optional single
decimal point, and at least one digit present. -/
def parseMantissa? (cs : List Char) : Option Rat :=
  let ip := cs.takeWhile Char.isDigit
  let rest := cs.drop ip.length
  match rest with
  | [] => if ip = [] then none else some (digitsToNat ip : Rat)
  | '.' :: frac =>
    if frac.all Char.isDigit ∧ (ip ≠ [] ∨ frac ≠ []) then
      some ((digitsToNat ip : Rat) + (digitsToNat frac : Rat) / (10 : Rat) ^ frac.length)
    else none
  | _ => none

/-- `strconv.ParseFloat(s, 64)` on decimal forms: optional sign, decimal
mantissa, optional decimal exponent. -/
def parseFloat? (s : String) : Option Rat :=
  let (neg, cs) := stripSign s.toList
  let (mcs, ecs) := splitExp cs
  match parseMantissa? mcs with
  | none => none
  | some m =>
    let m := if neg then -m else m
    match ecs with
    | none => some m
    | some e =>
      let (eneg, eds) := stripSign e
      if eds ≠ [] ∧ eds.all Char.isDigit then
        some (if eneg then m / (10 : Rat) ^ digitsToNat eds
              else m * (10 : Rat) ^ digitsToNat eds)
      else none

/-- First-match lookup in an association list keyed by metric name. -/
def alistGet {α : Type} : List (String × α) → String → Option α
  | [], _ => none
  | (k, v) :: t, n => if k = n then some v else alistGet t n

/-- Replace the first entry with the given key, or append a new entry. -/
def alistSet {α : Type} : List (String × α) → String → α → List (String × α)
  | [], n, v => [(n, v)]
  | (k, w) :: t, n, v => if k = n then (n, v) :: t else (k, w) :: alistSet t n v

/-- Modelled from the spec: the storage backend state (packages
`internal/server/storage` and `internal/models` are not in the sources).
Per spec §3, counters and gauges live in separate per-kind maps. -/
structure Storage where
  counters : List (String × Int)
  gauges : List (String × Rat)
deriving DecidableEq

def Storage.empty : Storage := ⟨[], []⟩

/-- Modelled from the spec: `Get(name, kind) -> (value, found)`;
`none` is the `found=false` outcome, which is not an error. -/
def Storage.get (s : Storage) (name : String) (k : MetricKind) : Option MetricValue :=
  match k with
  | .counter => (alistGet s.counters name).map .counterVal
  | .gauge => (alistGet s.gauges name).map .gaugeVal

/-- Modelled from the spec: Counter merge rule `existing + incoming.delta`,
a missing entry counting as absent (the delta is inserted as-is). -/
def Storage.upsertCounter (s : Storage) (name : String) (d : Int) : Storage :=
  { s with counters := alistSet s.counters name ((alistGet s.counters name).getD 0 + d) }

/-- Modelled from the spec: Gauge merge rule `incoming.value` (replace). -/
def Storage.setGauge (s : Storage) (name : String) (v : Rat) : Storage :=
  { s with gauges := alistSet s.gauges name v }

/-- Coordinator rejection taxonomy (spec §7). -/
inductive UpdateError where
  | invalidMetricKind
  | invalidMetricValue
deriving DecidableEq

/-- HTTP status surfaced for a coordinator rejection: both are client
errors (400), as the handler tests require. -/
def httpStatusOf : UpdateError → Nat
  | .invalidMetricKind => 400
  | .invalidMetricValue => 400

/-- Modelled from the spec: the Update Coordinator's single update path
(`internal/server/service` is not in the sources; behavior fixed by spec
§4.6 and by `TestUpdateMetricHandler`): validate the kind string, parse
the numeric payload for that kind, then apply the merge rule. -/
def updateServ (s : Storage) (kindStr name raw : String) : Except UpdateError Storage :=
  if kindStr = "gauge" then
    match parseFloat? raw with
    | none => .error .invalidMetricValue
    | some v => .ok (s.setGauge name v)
  else if kindStr = "counter" then
    match parseInt64? raw with
    | none => .error .invalidMetricValue
    | some d => .ok (s.upsertCounter name d)
  else .error .invalidMetricKind

/-- Typed entry point used by the testable properties: `Upsert(name, kind, raw)`. -/
def upsert (s : Storage) (name : String) (k : MetricKind) (raw : String) :
    Except UpdateError Storage :=
  updateServ s k.str name raw

/-- One update request as it reaches the coordinator. -/
structure UpdateReq where
  kindStr : String
  name : String
  raw : String
deriving DecidableEq

/-- Apply one update; a rejected update leaves the state unchanged. -/
def applyUpdate (s : Storage) (u : UpdateReq) : Storage :=
  match updateServ s u.kindStr u.name u.raw with
  | .ok s' => s'
  | .error _ => s

/-- Apply a sequence of updates in arrival order. -/
def applyUpdates (s : Storage) (us : List UpdateReq) : Storage :=
  us.foldl applyUpdate s

/-- Apply a sequence of Counter updates to one name, each given as the raw
payload string paired with the delta it denotes. -/
def applyCounterRaws (s : Storage) (name : String) (us : List (String × Int)) : Storage :=
  us.foldl (fun st u => applyUpdate st ⟨"counter", name, u.1⟩) s

/-- Apply a sequence of Gauge updates to one name, each given as the raw
payload string paired with the value it denotes. -/
def applyGaugeRaws (s : Storage) (name : String) (us : List (String × Rat)) : Storage :=
  us.foldl (fun st u => applyUpdate st ⟨"gauge", name, u.1⟩) s

/-- An update is accepted by validation alone (state-independent). -/
def validUpdate (u : UpdateReq) : Bool :=
  if u.kindStr = "gauge" then (parseFloat? u.raw).isSome
  else if u.kindStr = "counter" then (parseInt64? u.raw).isSome
  else false

/-- Status and body the update handler writes for each coordinator outcome,
as fixed by `TestUpdateMetricHandler` in `router.go`. -/
def updateHandlerResponse (s : Storage) (kindStr name raw : String) : Nat × String :=
  match updateServ s kindStr name raw with
  | .ok _ => (200, "")
  | .error .invalidMetricKind => (400, "invalid metric type")
  | .error .invalidMetricValue =>
    (400, if kindStr = "gauge" then "invalid gauge value" else "invalid counter value")

/-- Batch error: identifies the offending item and why it failed. -/
inductive BatchError where
  | itemFailed (index : Nat) (e : UpdateError)
deriving DecidableEq

/-- Modelled from the spec: the Database backend's `UpsertBatch`
(`internal/server/storage` is not in the sources). All item upserts run
inside one transaction, in array order; the first failing item aborts
with an error naming its index. -/
def dbUpsertBatchLoop (s : Storage) : List UpdateReq → Nat → Except BatchError Storage
  | [], _ => .ok s
  | it :: rest, i =>
    match updateServ s it.kindStr it.name it.raw with
    | .error e => .error (.itemFailed i e)
    | .ok s' => dbUpsertBatchLoop s' rest (i + 1)

def dbUpsertBatch (s : Storage) (items : List UpdateReq) : Except BatchError Storage :=
  dbUpsertBatchLoop s items 0

/-- Modelled from the spec: the state observable after the batch call —
on error the transaction is rolled back, so the prior state survives. -/
def dbApplyBatch (s : Storage) (items : List UpdateReq) : Storage :=
  match dbUpsertBatch s items with
  | .ok s' => s'
  | .error _ => s

/-- Whether an Except value is a success. -/
def exceptIsOk {ε α : Type} : Except ε α → Bool
  | .ok _ => true
  | .error _ => false

/-- Index of the first batch item that fails validation, if any. -/
def firstInvalid : List UpdateReq → Option Nat
  | [] => none
  | it :: rest => if validUpdate it then (firstInvalid rest).map (· + 1) else some 0

/-- One serialized snapshot line for a counter entry. -/
def snapEntryOfCounter (p : String × Int) : String × MetricKind × MetricValue :=
  (p.1, MetricKind.counter, MetricValue.counterVal p.2)

/-- One serialized snapshot line for a gauge entry. -/
def snapEntryOfGauge (p : String × Rat) : String × MetricKind × MetricValue :=
  (p.1, MetricKind.gauge, MetricValue.gaugeVal p.2)

/-- Deserialize a snapshot line as a counter entry, if it is one. -/
def counterOfSnapEntry : String × MetricKind × MetricValue → Option (String × Int)
  | (n, MetricKind.counter, MetricValue.counterVal v) => some (n, v)
  | _ => none

/-- Deserialize a snapshot line as a gauge entry, if it is one. -/
def gaugeOfSnapEntry : String × MetricKind × MetricValue → Option (String × Rat)
  | (n, MetricKind.gauge, MetricValue.gaugeVal v) => some (n, v)
  | _ => none

/-- Modelled from the spec: the File-Snapshot backend serializes the full
state as (name, kind, value) triples (spec §6: format is an implementation
choice; round-trip fidelity is mandatory). -/
def writeSnapshot (s : Storage) : List (String × MetricKind × MetricValue) :=
  s.counters.map snapEntryOfCounter ++ s.gauges.map snapEntryOfGauge

/-- Modelled from the spec: restore-on-start loads the snapshot triples
back into the per-kind maps, setting each value exactly as saved. -/
def restoreSnapshot (file : List (String × MetricKind × MetricValue)) : Storage :=
  { counters := file.filterMap counterOfSnapEntry
    gauges := file.filterMap gaugeOfSnapEntry }

/-- `maxRetries` from `internal/agent/sender`. -/
def maxRetries : Nat := 3

/-- `retryDelay` from `internal/agent/sender`, in seconds. -/
def retryDelaySeconds : Nat := 1

/-- Observable outcome of the retry loop: whether it returned nil, how many
attempts were made, and the sleeps performed (seconds, in order). -/
structure RetryTrace where
  success : Bool
  attempts : Nat
  sleeps : List Nat
deriving DecidableEq

/-- The loop body of `sendWithRetry`: `respond i` is attempt `i`'s outcome
(`none` for a transport error, `some code` for an HTTP status). An attempt
succeeds only when it returns status 200; otherwise the loop sleeps `delay`
seconds and retries with `delay + 2`. The fuel is the remaining attempts. -/
def sendWithRetryLoop (respond : Nat → Option Nat) : Nat → Nat → Nat → RetryTrace
  | _, _, 0 => ⟨false, 0, []⟩
  | i, delay, fuel + 1 =>
    if respond i = some 200 then ⟨true, 1, []⟩
    else
      let r := sendWithRetryLoop respond (i + 1) (delay + 2) fuel
      ⟨r.success, r.attempts + 1, delay :: r.sleeps⟩

/-- `sendWithRetry` from `internal/agent/sender`: at most `maxRetries`
attempts, starting with a 1-second delay that grows by 2 seconds each
retry; returns nil on the first status-200 response, an error once all
attempts are spent. -/
def sendWithRetry (respond : Nat → Option Nat) : RetryTrace :=
  sendWithRetryLoop respond 0 retryDelaySeconds maxRetries

/-- Outcome of the `CheckHash` middleware for one request. -/
inductive HashOutcome where
  | pass
  | abort400
deriving DecidableEq

/-- `CheckHash` from `internal/server/middleware`: with an empty secret key
every request passes untouched; otherwise the request is aborted with 400
when the `HashSHA256` header is missing (empty), the body cannot be read,
or the header differs from `calculateHash(body, key)`. `calcHash` stands
for the Go stdlib HMAC-SHA256 hex digest, passed in as a parameter. -/
def CheckHash (calcHash : List Nat → String → String) (secretKey : String)
    (header : String) (body : Option (List Nat)) : HashOutcome :=
  if secretKey = "" then .pass
  else if header = "" then .abort400
  else
    match body with
    | none => .abort400
    | some data =>
      if header ≠ calcHash data secretKey then .abort400 else .pass

/-- A gzip codec: the Go stdlib writer/reader pair, abstracted as the bytes
it would produce and recover. -/
structure GzipCodec where
  compress : List Nat → List Nat
  decompress : List Nat → Option (List Nat)

/-- `CompressData` from `internal/agent/sender`: write the whole payload to
a fresh gzip writer over a buffer, close it, and return the buffer; a
failure of `Write` or `Close` is returned as an error. The two failure
flags model the only error sources, the underlying writer. -/
def CompressData (gz : GzipCodec) (writeErr closeErr : Bool) (data : List Nat) :
    Except String (List Nat) :=
  if writeErr then .error "gzip write error"
  else if closeErr then .error "gzip close error"
  else .ok (gz.compress data)

/-- `FileStoragePath` from `internal/server/flags`: the raw configured
string is returned unchanged unless it is exactly "=", which maps to "". -/
def FileStoragePath (raw : String) : String :=
  if raw = "=" then "" else raw

/-- The backend a server selects at startup. -/
inductive BackendChoice where
  | database
  | file
  | memory
deriving DecidableEq

/-- Modelled from the spec: backend selection (spec §4.6) — database DSN
present selects the Database backend, else a file path selects the
File-Snapshot backend, else the Memory backend. -/
def selectBackend (dsn filePath : String) : BackendChoice :=
  if dsn ≠ "" then .database
  else if filePath ≠ "" then .file
  else .memory

/-! ## Helper lemmas -/

theorem alistGet_set_self {α : Type} (l : List (String × α)) (n : String) (v : α) :
    alistGet (alistSet l n v) n = some v := by
  induction l with
  | nil => simp [alistSet, alistGet]
  | cons p t ih =>
    by_cases h : p.1 = n
    · simp [alistSet, alistGet, h]
    · simpa [alistSet, alistGet, h] using ih

theorem alistGet_set_ne {α : Type} (l : List (String × α)) (m n : String) (v : α)
    (h : m ≠ n) : alistGet (alistSet l m v) n = alistGet l n := by
  induction l with
  | nil => simp [alistSet, alistGet, h]
  | cons p t ih =>
    by_cases hp : p.1 = m
    · simp [alistSet, alistGet, hp, h]
    · simp only [alistSet, alistGet, if_neg hp]
      by_cases hn : p.1 = n
      · simp [alistGet, hn]
      · simpa [alistGet, hn] using ih

theorem filterMap_map_some {α β : Type} (f : α → β) (g : β → Option α)
    (h : ∀ a, g (f a) = some a) (l : List α) : (l.map f).filterMap g = l := by
  induction l with
  | nil => rfl
  | cons a t ih => simp [List.filterMap_cons, h, ih]

theorem filterMap_map_none {α β γ : Type} (f : α → β) (g : β → Option γ)
    (h : ∀ a, g (f a) = none) (l : List α) : (l.map f).filterMap g = [] := by
  induction l with
  | nil => rfl
  | cons a t ih => simp [List.filterMap_cons, h, ih]

/-! ## Claim theorems -/

/-- C6: writing a snapshot and restoring from it reproduces exactly the
same set of (name, kind, value) triples: the restored storage is equal to
the original, so every Get observes the same value. -/
theorem snapshot_restore_roundtrip (s : Storage) :
    restoreSnapshot (writeSnapshot s) = s ∧
    ∀ (name : String) (k : MetricKind),
      Storage.get (restoreSnapshot (writeSnapshot s)) name k = Storage.get s name k := by
  have hid : restoreSnapshot (writeSnapshot s) = s := by
    cases s with
    | mk cs gs =>
      unfold restoreSnapshot writeSnapshot
      simp only [List.filterMap_append]
      congr 1
      · rw [filterMap_map_some snapEntryOfCounter counterOfSnapEntry (fun a => rfl),
          filterMap_map_none snapEntryOfGauge counterOfSnapEntry (fun a => rfl),
          List.append_nil]
      · rw [filterMap_map_none snapEntryOfCounter gaugeOfSnapEntry (fun a => rfl),
          filterMap_map_some snapEntryOfGauge gaugeOfSnapEntry (fun a => rfl),
          List.nil_append]
  exact ⟨hid, fun name k => by rw [hid]⟩

/-- C10: the server configuration accessor FileStoragePath returns the
configured string unchanged for every value except "=", which is mapped to
the empty string, and an empty path never selects the file backend. -/
theorem fileStoragePath_spec (raw : String) :
    (raw ≠ "=" → FileStoragePath raw = raw) ∧
    FileStoragePath "=" = "" ∧
    ∀ dsn, selectBackend dsn (FileStoragePath "=") ≠ BackendChoice.file := by
  refine ⟨fun h => if_neg h, rfl, fun dsn => ?_⟩
  unfold selectBackend FileStoragePath
  by_cases hd : dsn = "" <;> simp [hd]

/-- C10 witness: a regular path comes back unchanged. -/
theorem fileStoragePath_spec_witness :
    FileStoragePath "/tmp/metrics-db.json" = "/tmp/metrics-db.json" :=
  (fileStoragePath_spec "/tmp/metrics-db.json").1 (by decide)

/-- C8: CheckHash aborts with 400 exactly when the secret key is non-empty
and the header is missing, the body is unreadable, or the header differs
from the keyed hash of the body; with an empty key every request passes. -/
theorem checkHash_spec (calcHash : List Nat → String → String) (key header : String)
    (body : Option (List Nat)) :
    (key = "" → CheckHash calcHash key header body = HashOutcome.pass) ∧
    (key ≠ "" →
      (CheckHash calcHash key header body = HashOutcome.abort400 ↔
        header = "" ∨ body = none ∨ ∃ d, body = some d ∧ header ≠ calcHash d key)) := by
  constructor
  · intro h; simp [CheckHash, h]
  · intro h
    unfold CheckHash
    rw [if_neg h]
    by_cases hh : header = ""
    · simp [hh]
    · rw [if_neg hh]
      cases body with
      | none => simp [hh]
      | some d =>
        by_cases hc : header = calcHash d key
        · subst hc; simp [hh]
        · simp [hh, hc]

/-- C8 witness: non-empty key and missing header is rejected with 400. -/
theorem checkHash_spec_witness :
    CheckHash (fun _ _ => "aa") "secret" "" (some [1, 2]) = HashOutcome.abort400 :=
  ((checkHash_spec (fun _ _ => "aa") "secret" "" (some [1, 2])).2
    (by decide)).mpr (Or.inl rfl)

/-- C9: whenever the gzip codec is a round-trip pair (the stdlib contract),
decompressing a successful CompressData output yields the original bytes,
CompressData succeeds when the writer does not fail, and it returns an
error only when the underlying writer's Write or Close failed. -/
theorem compressData_roundtrip (gz : GzipCodec) (writeErr closeErr : Bool)
    (data : List Nat) (hrt : ∀ d, gz.decompress (gz.compress d) = some d) :
    (∀ out, CompressData gz writeErr closeErr data = Except.ok out →
      gz.decompress out = some data) ∧
    (writeErr = false → closeErr = false →
      CompressData gz writeErr closeErr data = Except.ok (gz.compress data)) ∧
    ((∃ e, CompressData gz writeErr closeErr data = Except.error e) →
      writeErr = true ∨ closeErr = true) := by
  unfold CompressData
  cases writeErr <;> cases closeErr <;> simp_all

/-- C9 witness: with an identity codec and no writer failure, the output
decompresses back to the input. -/
theorem compressData_roundtrip_witness :
    CompressData ⟨id, some⟩ false false [7, 8] = Except.ok [7, 8] :=
  (compressData_roundtrip ⟨id, some⟩ false false [7, 8] (fun _ => rfl)).2.1 rfl rfl

theorem sendWithRetryLoop_attempts_le (respond : Nat → Option Nat) (i delay fuel : Nat) :
    (sendWithRetryLoop respond i delay fuel).attempts ≤ fuel := by
  induction fuel generalizing i delay with
  | zero => simp [sendWithRetryLoop]
  | succ n ih =>
    by_cases h : respond i = some 200
    · simp [sendWithRetryLoop, h]
    · simp only [sendWithRetryLoop, if_neg h]
      exact Nat.succ_le_succ (ih (i + 1) (delay + 2))

theorem sendWithRetryLoop_success_iff (respond : Nat → Option Nat) (i delay fuel : Nat) :
    (sendWithRetryLoop respond i delay fuel).success = true ↔
      ∃ k, k < fuel ∧ respond (i + k) = some 200 := by
  induction fuel generalizing i delay with
  | zero => simp [sendWithRetryLoop]
  | succ n ih =>
    by_cases h : respond i = some 200
    · constructor
      · intro _
        exact ⟨0, Nat.succ_pos n, by simpa using h⟩
      · intro _
        simp [sendWithRetryLoop, h]
    · simp only [sendWithRetryLoop, if_neg h]
      rw [show (⟨(sendWithRetryLoop respond (i + 1) (delay + 2) n).success,
          (sendWithRetryLoop respond (i + 1) (delay + 2) n).attempts + 1,
          delay :: (sendWithRetryLoop respond (i + 1) (delay + 2) n).sleeps⟩ :
          RetryTrace).success =
        (sendWithRetryLoop respond (i + 1) (delay + 2) n).success from rfl]
      rw [ih (i + 1) (delay + 2)]
      constructor
      · rintro ⟨k, hk, hr⟩
        refine ⟨k + 1, by omega, ?_⟩
        rwa [show i + (k + 1) = i + 1 + k by omega]
      · rintro ⟨k, hk, hr⟩
        cases k with
        | zero => exact absurd (by simpa using hr) h
        | succ m =>
          refine ⟨m, by omega, ?_⟩
          rwa [show i + 1 + m = i + (m + 1) by omega]

theorem range_map_delay (delay n : Nat) :
    (List.range (n + 1)).map (fun k => delay + 2 * k) =
      delay :: (List.range n).map (fun k => delay + 2 + 2 * k) := by
  rw [List.range_succ_eq_map, List.map_cons, List.map_map]
  refine congrArg₂ _ (by omega) ?_
  refine List.map_congr_left ?_
  intro a _
  simp only [Function.comp]
  omega

theorem sendWithRetryLoop_all_fail (respond : Nat → Option Nat) (i delay fuel : Nat)
    (h : ∀ k, k < fuel → respond (i + k) ≠ some 200) :
    sendWithRetryLoop respond i delay fuel =
      ⟨false, fuel, (List.range fuel).map (fun k => delay + 2 * k)⟩ := by
  induction fuel generalizing i delay with
  | zero => rfl
  | succ n ih =>
    have h0 : respond i ≠ some 200 := by simpa using h 0 (Nat.succ_pos n)
    have hrest : ∀ k, k < n → respond (i + 1 + k) ≠ some 200 := by
      intro k hk
      have hh := h (k + 1) (by omega)
      rwa [show i + (k + 1) = i + 1 + k by omega] at hh
    simp only [sendWithRetryLoop, if_neg h0]
    rw [ih (i + 1) (delay + 2) hrest, range_map_delay]

theorem sendWithRetryLoop_first_success (respond : Nat → Option Nat)
    (i delay fuel j : Nat) (hj : j < fuel) (hs : respond (i + j) = some 200)
    (hf : ∀ k, k < j → respond (i + k) ≠ some 200) :
    sendWithRetryLoop respond i delay fuel =
      ⟨true, j + 1, (List.range j).map (fun k => delay + 2 * k)⟩ := by
  induction fuel generalizing i delay j with
  | zero => omega
  | succ n ih =>
    cases j with
    | zero =>
      have h0 : respond i = some 200 := by simpa using hs
      simp [sendWithRetryLoop, h0]
    | succ m =>
      have h0 : respond i ≠ some 200 := by simpa using hf 0 (Nat.succ_pos m)
      have hs' : respond (i + 1 + m) = some 200 := by
        rwa [show i + 1 + m = i + (m + 1) by omega]
      have hf' : ∀ k, k < m → respond (i + 1 + k) ≠ some 200 := by
        intro k hk
        have hh := hf (k + 1) (by omega)
        rwa [show i + (k + 1) = i + 1 + k by omega] at hh
      simp only [sendWithRetryLoop, if_neg h0]
      rw [ih (i + 1) (delay + 2) m (by omega) hs' hf', range_map_delay]

/-- C7: the retry loop always terminates within maxRetries = 3 attempts.
It succeeds exactly when some attempt within the first three returns
status 200, it stops at the first such attempt having slept the linearly
increasing delays 1, 3, 5 seconds between earlier attempts, and when all
three attempts fail it returns a terminal error. -/
theorem sendWithRetry_terminates (respond : Nat → Option Nat) :
    (sendWithRetry respond).attempts ≤ maxRetries ∧
    ((sendWithRetry respond).success = true ↔
      ∃ i, i < maxRetries ∧ respond i = some 200) ∧
    ((∀ i, i < maxRetries → respond i ≠ some 200) →
      sendWithRetry respond = ⟨false, maxRetries, [1, 3, 5]⟩) ∧
    (∀ j, j < maxRetries → respond j = some 200 →
      (∀ k, k < j → respond k ≠ some 200) →
      sendWithRetry respond = ⟨true, j + 1, (List.range j).map (fun k => 1 + 2 * k)⟩) := by
  refine ⟨sendWithRetryLoop_attempts_le respond 0 1 3, ?_, ?_, ?_⟩
  · have h := sendWithRetryLoop_success_iff respond 0 1 3
    simpa using h
  · intro h
    have hall := sendWithRetryLoop_all_fail respond 0 1 3
      (fun k hk => by simpa using h k hk)
    have hl : (List.range 3).map (fun k => 1 + 2 * k) = [1, 3, 5] := by decide
    rw [show maxRetries = 3 from rfl]
    exact hall.trans (by rw [hl])
  · intro j hj hjs hf
    have hfs := sendWithRetryLoop_first_success respond 0 1 3 j hj
      (by simpa using hjs) (fun k hk => by simpa using hf k hk)
    exact hfs

/-- C7 witness: with a transport that fails once and then returns 200, the
loop succeeds on the second attempt after a single 1-second sleep. -/
theorem sendWithRetry_terminates_witness :
    sendWithRetry (fun i => if i = 1 then some 200 else some 500) =
      ⟨true, 2, [1]⟩ := by
  have h := (sendWithRetry_terminates (fun i => if i = 1 then some 200 else some 500)).2.2.2
    1 (by decide) (by decide) (fun k hk => by
      have hk0 : k = 0 := by omega
      subst hk0
      decide)
  simpa using h

theorem applyUpdate_counter (s : Storage) (n raw : String) (d : Int)
    (h : parseInt64? raw = some d) :
    applyUpdate s ⟨"counter", n, raw⟩ = s.upsertCounter n d := by
  unfold applyUpdate updateServ
  rw [if_neg (by decide : ¬("counter" = "gauge")), if_pos rfl, h]

theorem applyUpdate_gauge (s : Storage) (n raw : String) (v : Rat)
    (h : parseFloat? raw = some v) :
    applyUpdate s ⟨"gauge", n, raw⟩ = s.setGauge n v := by
  unfold applyUpdate updateServ
  rw [if_pos rfl, h]

theorem upsertCounter_get (s : Storage) (n : String) (d : Int) :
    alistGet (s.upsertCounter n d).counters n =
      some ((alistGet s.counters n).getD 0 + d) :=
  alistGet_set_self _ _ _

theorem setGauge_get (s : Storage) (n : String) (v : Rat) :
    alistGet (s.setGauge n v).gauges n = some v :=
  alistGet_set_self _ _ _

theorem applyCounterRaws_cons (s : Storage) (name : String) (u : String × Int)
    (rest : List (String × Int)) :
    applyCounterRaws s name (u :: rest) =
      applyCounterRaws (applyUpdate s ⟨"counter", name, u.1⟩) name rest := rfl

theorem applyCounterRaws_acc (name : String) (us : List (String × Int))
    (h : ∀ u ∈ us, parseInt64? u.1 = some u.2) :
    ∀ (s : Storage) (v : Int), alistGet s.counters name = some v →
      alistGet (applyCounterRaws s name us).counters name =
        some (v + (us.map Prod.snd).sum) := by
  induction us with
  | nil =>
    intro s v hs
    simpa [applyCounterRaws] using hs
  | cons u rest ih =>
    intro s v hs
    have hu : parseInt64? u.1 = some u.2 := h u (List.mem_cons_self u rest)
    have hrest : ∀ w ∈ rest, parseInt64? w.1 = some w.2 :=
      fun w hw => h w (List.mem_cons_of_mem u hw)
    rw [applyCounterRaws_cons, applyUpdate_counter s name u.1 u.2 hu]
    have hstep : alistGet (s.upsertCounter name u.2).counters name = some (v + u.2) := by
      rw [upsertCounter_get, hs]
      rfl
    rw [ih hrest (s.upsertCounter name u.2) (v + u.2) hstep, List.map_cons,
      List.sum_cons, add_assoc]

/-- C1: starting from no stored entry, a sequence of accepted Counter
updates with deltas d1..dn leaves Get returning exactly their sum. Each
update is given as the raw payload together with the delta it parses to;
acceptance is the hypothesis that each payload parses. -/
theorem counter_updates_sum (name : String) (us : List (String × Int))
    (hne : us ≠ []) (h : ∀ u ∈ us, parseInt64? u.1 = some u.2) :
    Storage.get (applyCounterRaws Storage.empty name us) name MetricKind.counter =
      some (MetricValue.counterVal ((us.map Prod.snd).sum)) := by
  cases us with
  | nil => exact absurd rfl hne
  | cons u rest =>
    have hu : parseInt64? u.1 = some u.2 := h u (List.mem_cons_self u rest)
    have hrest : ∀ w ∈ rest, parseInt64? w.1 = some w.2 :=
      fun w hw => h w (List.mem_cons_of_mem u hw)
    have hstep : alistGet (Storage.empty.upsertCounter name u.2).counters name =
        some u.2 := by
      rw [upsertCounter_get]
      show some ((0 : Int) + u.2) = some u.2
      rw [zero_add]
    rw [applyCounterRaws_cons, applyUpdate_counter _ _ _ _ hu]
    unfold Storage.get
    rw [applyCounterRaws_acc name rest hrest _ u.2 hstep, List.map_cons, List.sum_cons]
    rfl

/-- C1 witness: Upsert("requests", Counter, "5") then
Upsert("requests", Counter, "3") makes Get return 8. -/
theorem counter_updates_sum_witness :
    Storage.get (applyCounterRaws Storage.empty "requests" [("5", 5), ("3", 3)])
      "requests" MetricKind.counter = some (MetricValue.counterVal 8) := by
  rw [counter_updates_sum "requests" [("5", 5), ("3", 3)] (by decide) (by decide)]
  decide

theorem applyGaugeRaws_cons (s : Storage) (name : String) (u : String × Rat)
    (rest : List (String × Rat)) :
    applyGaugeRaws s name (u :: rest) =
      applyGaugeRaws (applyUpdate s ⟨"gauge", name, u.1⟩) name rest := rfl

theorem applyGaugeRaws_getLast (name : String) (us : List (String × Rat))
    (h : ∀ u ∈ us, parseFloat? u.1 = some u.2) (last : String × Rat) :
    ∀ s : Storage, us.getLast? = some last →
      alistGet (applyGaugeRaws s name us).gauges name = some last.2 := by
  induction us with
  | nil => intro s hl; simp at hl
  | cons u rest ih =>
    intro s hl
    have hu : parseFloat? u.1 = some u.2 := h u (List.mem_cons_self u rest)
    have hrest : ∀ w ∈ rest, parseFloat? w.1 = some w.2 :=
      fun w hw => h w (List.mem_cons_of_mem u hw)
    rw [applyGaugeRaws_cons, applyUpdate_gauge _ _ _ _ hu]
    cases rest with
    | nil =>
      have hu0 : last = u := by
        rw [List.getLast?_singleton] at hl
        exact (Option.some_inj.mp hl).symm
      subst hu0
      exact setGauge_get s name last.2
    | cons w ws =>
      have hl' : (w :: ws).getLast? = some last := by
        rwa [List.getLast?_cons_cons] at hl
      exact ih hrest (s.setGauge name u.2) hl'

/-- C2: starting from no stored entry, a non-empty sequence of accepted
Gauge updates applied in arrival order leaves Get returning exactly the
value of the last accepted update (last write wins). -/
theorem gauge_last_write_wins (name : String) (us : List (String × Rat))
    (h : ∀ u ∈ us, parseFloat? u.1 = some u.2) (last : String × Rat)
    (hl : us.getLast? = some last) :
    Storage.get (applyGaugeRaws Storage.empty name us) name MetricKind.gauge =
      some (MetricValue.gaugeVal last.2) := by
  unfold Storage.get
  rw [applyGaugeRaws_getLast name us h last Storage.empty hl]
  rfl

/-- C2 witness: Upsert("temp", Gauge, "36.6") then
Upsert("temp", Gauge, "37.1") makes Get return 37.1. -/
theorem gauge_last_write_wins_witness :
    Storage.get (applyGaugeRaws Storage.empty "temp" [("36.6", 36.6), ("37.1", 37.1)])
      "temp" MetricKind.gauge = some (MetricValue.gaugeVal 37.1) := by
  rw [gauge_last_write_wins "temp" [("36.6", 36.6), ("37.1", 37.1)] (by decide)
    ("37.1", 37.1) (by decide)]

theorem get_applyUpdate_untargeted (s : Storage) (u : UpdateReq) (name : String)
    (k : MetricKind)
    (h : u.name ≠ name ∨ u.kindStr ≠ k.str ∨ validUpdate u = false) :
    Storage.get (applyUpdate s u) name k = Storage.get s name k := by
  unfold applyUpdate updateServ
  by_cases hg : u.kindStr = "gauge"
  · rw [if_pos hg]
    cases hp : parseFloat? u.raw with
    | none => rfl
    | some v =>
      have hval : validUpdate u = true := by
        unfold validUpdate
        rw [if_pos hg, hp]
        rfl
      cases k with
      | counter => rfl
      | gauge =>
        have hn : u.name ≠ name := by
          rcases h with h | h | h
          · exact h
          · exact absurd hg h
          · exact absurd h (by simp [hval])
        show (alistGet (alistSet s.gauges u.name v) name).map MetricValue.gaugeVal =
          (alistGet s.gauges name).map MetricValue.gaugeVal
        rw [alistGet_set_ne s.gauges u.name name v hn]
  · rw [if_neg hg]
    by_cases hc : u.kindStr = "counter"
    · rw [if_pos hc]
      cases hp : parseInt64? u.raw with
      | none => rfl
      | some d =>
        have hval : validUpdate u = true := by
          unfold validUpdate
          rw [if_neg hg, if_pos hc, hp]
          rfl
        cases k with
        | gauge => rfl
        | counter =>
          have hn : u.name ≠ name := by
            rcases h with h | h | h
            · exact h
            · exact absurd hc h
            · exact absurd h (by simp [hval])
          show (alistGet
              (alistSet s.counters u.name ((alistGet s.counters u.name).getD 0 + d))
              name).map MetricValue.counterVal =
            (alistGet s.counters name).map MetricValue.counterVal
          rw [alistGet_set_ne s.counters u.name name _ hn]
    · rw [if_neg hc]

/-- C3: for a (name, kind) pair that no update in the whole history ever
targeted and was accepted for, Get returns the not-found outcome `none` —
by type it returns no error, and it does not return a stored zero. -/
theorem get_unknown_not_found (us : List UpdateReq) (name : String) (k : MetricKind)
    (h : ∀ u ∈ us, u.name ≠ name ∨ u.kindStr ≠ k.str ∨ validUpdate u = false) :
    Storage.get (applyUpdates Storage.empty us) name k = none := by
  have hgen : ∀ (vs : List UpdateReq), (∀ u ∈ vs,
      u.name ≠ name ∨ u.kindStr ≠ k.str ∨ validUpdate u = false) →
      ∀ s : Storage, Storage.get s name k = none →
        Storage.get (applyUpdates s vs) name k = none := by
    intro vs
    induction vs with
    | nil => intro _ s hs; exact hs
    | cons u rest ih =>
      intro hv s hs
      rw [show applyUpdates s (u :: rest) = applyUpdates (applyUpdate s u) rest from rfl]
      refine ih (fun w hw => hv w (List.mem_cons_of_mem u hw)) (applyUpdate s u) ?_
      rw [get_applyUpdate_untargeted s u name k (hv u (List.mem_cons_self u rest))]
      exact hs
  refine hgen us h Storage.empty ?_
  cases k <;> rfl

/-- C3 witness: after updates to another name, to the same name under the
other kind, and a rejected update, Get("reqs", Counter) is not found. -/
theorem get_unknown_not_found_witness :
    Storage.get (applyUpdates Storage.empty
      [⟨"counter", "other", "5"⟩, ⟨"gauge", "reqs", "1.5"⟩, ⟨"bogus", "reqs", "1"⟩])
      "reqs" MetricKind.counter = none :=
  get_unknown_not_found
    [⟨"counter", "other", "5"⟩, ⟨"gauge", "reqs", "1.5"⟩, ⟨"bogus", "reqs", "1"⟩]
    "reqs" MetricKind.counter (by decide)

/-- C4: an update whose kind string is neither "counter" nor "gauge" is
rejected with InvalidMetricKind; a Counter payload that does not parse as
an integer, or a Gauge payload that does not parse as a float, is rejected
with InvalidMetricValue; every rejection surfaces as a 400 client error
with the handler's body text and leaves the storage state unchanged. -/
theorem update_validation (s : Storage) (kindStr name raw : String) :
    (kindStr ≠ "counter" → kindStr ≠ "gauge" →
      updateServ s kindStr name raw = Except.error UpdateError.invalidMetricKind ∧
      updateHandlerResponse s kindStr name raw = (400, "invalid metric type")) ∧
    (parseInt64? raw = none →
      updateServ s "counter" name raw = Except.error UpdateError.invalidMetricValue ∧
      updateHandlerResponse s "counter" name raw = (400, "invalid counter value")) ∧
    (parseFloat? raw = none →
      updateServ s "gauge" name raw = Except.error UpdateError.invalidMetricValue ∧
      updateHandlerResponse s "gauge" name raw = (400, "invalid gauge value")) ∧
    (∀ e, updateServ s kindStr name raw = Except.error e →
      httpStatusOf e = 400 ∧ applyUpdate s ⟨kindStr, name, raw⟩ = s) := by
  refine ⟨?_, ?_, ?_, ?_⟩
  · intro hc hg
    have hs : updateServ s kindStr name raw = Except.error UpdateError.invalidMetricKind := by
      unfold updateServ
      rw [if_neg hg, if_neg hc]
    refine ⟨hs, ?_⟩
    unfold updateHandlerResponse
    rw [hs]
  · intro hp
    have hs : updateServ s "counter" name raw =
        Except.error UpdateError.invalidMetricValue := by
      unfold updateServ
      rw [if_neg (by decide : ¬("counter" = "gauge")), if_pos rfl, hp]
    refine ⟨hs, ?_⟩
    unfold updateHandlerResponse
    rw [hs, if_neg (by decide : ¬("counter" = "gauge"))]
  · intro hp
    have hs : updateServ s "gauge" name raw =
        Except.error UpdateError.invalidMetricValue := by
      unfold updateServ
      rw [if_pos rfl, hp]
    refine ⟨hs, ?_⟩
    unfold updateHandlerResponse
    rw [hs, if_pos rfl]
  · intro e he
    refine ⟨by cases e <;> rfl, ?_⟩
    unfold applyUpdate
    rw [he]

/-- C4 witness: an unrecognized kind and a non-numeric counter payload are
both rejected as stated. -/
theorem update_validation_witness :
    updateServ Storage.empty "histogram" "m" "10" =
      Except.error UpdateError.invalidMetricKind ∧
    updateServ Storage.empty "counter" "m" "invalid" =
      Except.error UpdateError.invalidMetricValue :=
  ⟨((update_validation Storage.empty "histogram" "m" "10").1
      (by decide) (by decide)).1,
    ((update_validation Storage.empty "counter" "m" "invalid").2.1 (by decide)).1⟩

theorem updateServ_isOk (s : Storage) (u : UpdateReq) :
    exceptIsOk (updateServ s u.kindStr u.name u.raw) = validUpdate u := by
  unfold updateServ validUpdate
  by_cases hg : u.kindStr = "gauge"
  · rw [if_pos hg, if_pos hg]
    cases parseFloat? u.raw <;> rfl
  · rw [if_neg hg, if_neg hg]
    by_cases hc : u.kindStr = "counter"
    · rw [if_pos hc, if_pos hc]
      cases parseInt64? u.raw <;> rfl
    · rw [if_neg hc, if_neg hc]
      rfl

theorem updateServ_ok_of_valid (s : Storage) (u : UpdateReq)
    (hv : validUpdate u = true) :
    ∃ s', updateServ s u.kindStr u.name u.raw = Except.ok s' := by
  cases h : updateServ s u.kindStr u.name u.raw with
  | ok s' => exact ⟨s', rfl⟩
  | error e =>
    have hh := updateServ_isOk s u
    rw [h, hv] at hh
    exact absurd hh (by simp [exceptIsOk])

theorem updateServ_error_of_invalid (s : Storage) (u : UpdateReq)
    (hv : validUpdate u = false) :
    ∃ e, updateServ s u.kindStr u.name u.raw = Except.error e := by
  cases h : updateServ s u.kindStr u.name u.raw with
  | ok s' =>
    have hh := updateServ_isOk s u
    rw [h, hv] at hh
    exact absurd hh (by simp [exceptIsOk])
  | error e => exact ⟨e, rfl⟩

theorem firstInvalid_none_iff (items : List UpdateReq) :
    firstInvalid items = none ↔ ∀ it ∈ items, validUpdate it = true := by
  induction items with
  | nil => simp [firstInvalid]
  | cons it rest ih =>
    unfold firstInvalid
    by_cases hv : validUpdate it = true
    · simp [hv, Option.map_eq_none', ih]
    · simp [hv]

theorem dbLoop_all_valid (items : List UpdateReq) :
    ∀ (s : Storage) (i : Nat), firstInvalid items = none →
      dbUpsertBatchLoop s items i = Except.ok (applyUpdates s items) := by
  induction items with
  | nil => intro s i _; rfl
  | cons it rest ih =>
    intro s i hf
    unfold firstInvalid at hf
    by_cases hv : validUpdate it = true
    · rw [if_pos hv] at hf
      have hrest : firstInvalid rest = none := by
        cases hfr : firstInvalid rest with
        | none => rfl
        | some m => rw [hfr] at hf; simp at hf
      obtain ⟨s', hs'⟩ := updateServ_ok_of_valid s it hv
      have hchain : applyUpdates s (it :: rest) = applyUpdates s' rest := by
        show applyUpdates (applyUpdate s it) rest = applyUpdates s' rest
        unfold applyUpdate
        rw [hs']
      unfold dbUpsertBatchLoop
      rw [hs', hchain]
      exact ih s' (i + 1) hrest
    · rw [if_neg hv] at hf
      exact absurd hf (by simp)

theorem dbLoop_first_invalid (items : List UpdateReq) :
    ∀ (s : Storage) (i j : Nat), firstInvalid items = some j →
      ∃ e, dbUpsertBatchLoop s items i =
        Except.error (BatchError.itemFailed (i + j) e) := by
  induction items with
  | nil => intro s i j h; simp [firstInvalid] at h
  | cons it rest ih =>
    intro s i j hf
    unfold firstInvalid at hf
    by_cases hv : validUpdate it = true
    · rw [if_pos hv] at hf
      obtain ⟨m, hm, hj⟩ : ∃ m, firstInvalid rest = some m ∧ j = m + 1 := by
        cases hfr : firstInvalid rest with
        | none => rw [hfr] at hf; simp at hf
        | some m =>
          rw [hfr] at hf
          simp only [Option.map_some'] at hf
          exact ⟨m, rfl, (Option.some_inj.mp hf).symm⟩
      subst hj
      obtain ⟨s', hs'⟩ := updateServ_ok_of_valid s it hv
      unfold dbUpsertBatchLoop
      rw [hs']
      obtain ⟨e, he⟩ := ih s' (i + 1) m hm
      rw [show i + (m + 1) = i + 1 + m by omega]
      exact ⟨e, he⟩
    · rw [if_neg hv] at hf
      have hj : j = 0 := (Option.some_inj.mp hf).symm
      subst hj
      obtain ⟨e, he⟩ := updateServ_error_of_invalid s it
        (by revert hv; cases validUpdate it <;> simp)
      unfold dbUpsertBatchLoop
      rw [he]
      exact ⟨e, rfl⟩

/-- C5: UpsertBatch on the Database backend is atomic — when every item is
valid the whole batch is applied as one transaction equivalent to the
per-item updates in order, and when any item fails the batch returns an
error naming the first failing item's index and the observable state rolls
back to exactly the pre-batch state. -/
theorem upsertBatch_atomic (s : Storage) (items : List UpdateReq) :
    (firstInvalid items = none ↔ ∀ it ∈ items, validUpdate it = true) ∧
    (firstInvalid items = none →
      dbUpsertBatch s items = Except.ok (applyUpdates s items)) ∧
    (∀ e, dbUpsertBatch s items = Except.error e → dbApplyBatch s items = s) ∧
    (∀ j, firstInvalid items = some j →
      ∃ e, dbUpsertBatch s items = Except.error (BatchError.itemFailed j e) ∧
        dbApplyBatch s items = s) := by
  refine ⟨firstInvalid_none_iff items, ?_, ?_, ?_⟩
  · intro h
    exact dbLoop_all_valid items s 0 h
  · intro e he
    unfold dbApplyBatch
    rw [he]
  · intro j hj
    obtain ⟨e, he⟩ := dbLoop_first_invalid items s 0 j hj
    rw [Nat.zero_add] at he
    have he' : dbUpsertBatch s items = Except.error (BatchError.itemFailed j e) := he
    refine ⟨e, he', ?_⟩
    unfold dbApplyBatch
    rw [he']

/-- C5 witness: a two-item Counter batch whose second item is malformed is
rejected naming item 1, and the metric stays not found afterwards. -/
theorem upsertBatch_atomic_witness :
    dbApplyBatch Storage.empty
      [⟨"counter", "a", "1"⟩, ⟨"counter", "a", "2x"⟩] = Storage.empty ∧
    Storage.get (dbApplyBatch Storage.empty
      [⟨"counter", "a", "1"⟩, ⟨"counter", "a", "2x"⟩]) "a" MetricKind.counter = none := by
  obtain ⟨e, he, hroll⟩ := (upsertBatch_atomic Storage.empty
    [⟨"counter", "a", "1"⟩, ⟨"counter", "a", "2x"⟩]).2.2.2 1 (by decide)
  refine ⟨hroll, ?_⟩
  rw [hroll]
  rfl
